import Mathlib

/-!
# johnweldon/tunnel: a single-hop TCP tunnel over a secure-shell session

A shallow embedding of `main.go`.  Every call that leaves the program
(`net.Listen`, `Accept`, `ssh.Dial`, `server.Dial`, `io.Copy`, `log.Printf`,
`log.Fatal`, `wg.Done`, ...) is recorded as an `Event` in a trace; the results
the outside world hands back are read from a `World` record.  The two copy
goroutines of `Tunnel.forward` and the goroutine that waits for them are run
by an explicit schedule (a list of task ids), so that every interleaving is a
value the theorems quantify over.
-/

namespace SshTunnel

/-! ## Data model -/

/-- Payload bytes. -/
abbrev Bytes := List Nat

/-- A non-nil Go `error`, identified with the text its `Error()` method gives. -/
abbrev Err := String

/-- The source's `type Endpoint struct { Host string; Port int }`. -/
structure Endpoint where
  Host : String
  Port : Int
deriving DecidableEq, Repr

/-- The digit loop of the `%d` verb, `for u >= 10 { ... }`: the low digit of `u` is
put in front of what has been produced so far as long as `u >= 10`, and the last
digit closes the loop.  `fuel` bounds the number of turns (a `uint64` has at most
twenty digits). -/
def fmtDigits : Nat → Nat → List Char → List Char
  | 0, u, buf => Char.ofNat (48 + u % 10) :: buf
  | fuel + 1, u, buf =>
    if 10 ≤ u then
      fmtDigits fuel (u / 10) (Char.ofNat (48 + (u - (u / 10) * 10)) :: buf)
    else
      Char.ofNat (48 + u) :: buf

/-- The `%d` verb on a Go `int` (64 bits): the value is converted to `uint64`,
negated there when it is negative, rendered by the digit loop, and the sign is put
in front. -/
def fmtInteger (v : Int) : List Char :=
  let u : Nat := (v % 2 ^ 64).toNat
  let negative : Bool := decide (v < 0)
  let u : Nat := if negative then (2 ^ 64 - u) % 2 ^ 64 else u
  let buf := fmtDigits 20 u []
  if negative then '-' :: buf else buf

/-- The source's `func (e *Endpoint) String() string`, that is
`fmt.Sprintf("%s:%d", e.Host, e.Port)`. -/
def Endpoint.String (e : Endpoint) : String :=
  e.Host ++ ":" ++ String.mk (fmtInteger e.Port)

/-- The signer `ssh.ParsePrivateKey` returns, identified with its key material. -/
abbrev Signer := Bytes

/-- The fields of `ssh.ClientConfig` that `main` sets: the user, the timeout in
seconds and the signer behind `ssh.PublicKeys`; the host key callback accepts
every key and is not represented. -/
structure ClientConfig where
  User : String
  Timeout : Nat
  Auth : Signer
deriving DecidableEq, Repr

/-- The source's `type Tunnel struct`. -/
structure Tunnel where
  Local : Endpoint
  Server : Endpoint
  Remote : Endpoint
  Config : ClientConfig
deriving DecidableEq, Repr

/-- An accepted `net.Conn`, known by what `RemoteAddr()` renders. -/
structure Conn where
  RemoteAddr : String
deriving DecidableEq, Repr

/-- The two `net.Conn` values `Tunnel.forward` copies between: its parameter
(named local in the source) and the channel `server.Dial` returns (named remote). -/
inductive ConnEnd where
  | localConn
  | remoteChan
deriving DecidableEq, Repr

/-- What a `Close` call can be applied to. -/
inductive Resource where
  | listener
  | localConn
  | session
  | channel
deriving DecidableEq, Repr

/-- The calls that leave the program, in the order they are made. -/
inductive Event where
  | printf (format : String) (args : List String)
  | fatal (args : List String)
  | readFile (path : String)
  | parseKey (keyBytes : Bytes)
  | listen (network address : String)
  | accept
  | close (r : Resource)
  | goForward (conn : Conn)
  | sshDial (network address : String) (config : ClientConfig)
  | chanDial (network address : String)
  | wgAdd (delta : Int)
  | goCopy (name : String) (w r : ConnEnd)
  | write (w : ConnEnd) (p : Bytes)
  | wgDone
deriving DecidableEq, Repr

/-! ## `Tunnel.Start` -/

/-- One result of `listener.Accept()`. -/
inductive AcceptOutcome where
  | conn (c : Conn)
  | error (e : Err)
deriving DecidableEq, Repr

/-- What the outside world answers to `Tunnel.Start`: the result of `net.Listen`
(on success, what `listener.Addr().String()` renders) and the results of the
successive `Accept` calls. -/
structure StartWorld where
  listen : Except Err String
  accepts : List AcceptOutcome

/-- How a call of `Tunnel.Start` stands: still blocked in `Accept` (the world has no
further outcome), or returned with a Go `error` (`none` is `nil`). -/
inductive StartResult where
  | blocked
  | returned (err : Option Err)
deriving DecidableEq, Repr

/-- The `for` loop of `Tunnel.Start` (lines 88 to 95), with the deferred
`listener.Close()` run at the `return`. -/
def acceptLoop : List AcceptOutcome → List Event × StartResult
  | [] => ([Event.accept], StartResult.blocked)
  | AcceptOutcome.error e :: _ =>
    ([Event.accept, Event.close Resource.listener], StartResult.returned (some e))
  | AcceptOutcome.conn c :: rest =>
    let (tr, res) := acceptLoop rest
    (Event.accept :: Event.printf "accept connection from %q" [c.RemoteAddr]
      :: Event.goForward c :: tr, res)

/-- The source's `func (tunnel *Tunnel) Start() error`. -/
def Tunnel.Start (tunnel : Tunnel) (w : StartWorld) : List Event × StartResult :=
  match w.listen with
  | Except.error e =>
    ([Event.listen "tcp" tunnel.Local.String], StartResult.returned (some e))
  | Except.ok addr =>
    let (tr, res) := acceptLoop w.accepts
    (Event.listen "tcp" tunnel.Local.String
      :: Event.printf "listening for connections on %q" [addr] :: tr, res)

/-! ## `privateKey` and `main` -/

/-- The command line after `flag.Parse()`. -/
structure Flags where
  sshHost : String
  sshPort : Int
  remoteHost : String
  remotePort : Int
  localHost : String
  localPort : Int
  sshUser : String
  sshKeyFile : String
deriving DecidableEq, Repr

/-- The defaults registered in `init()`. -/
def Flags.defaults : Flags :=
  { sshHost := "localhost", sshPort := 22, remoteHost := "localhost", remotePort := 80,
    localHost := "localhost", localPort := 8080, sshUser := "ubuntu",
    sshKeyFile := "./private.key" }

/-- What the outside world answers to `main`: the file system, the key parser and
the network as `Tunnel.Start` sees it. -/
structure MainWorld where
  readFile : String → Except Err Bytes
  parseKey : Bytes → Except Err Signer
  start : StartWorld

/-- The source's `func privateKey(path string) ssh.Signer`; `none` means that
`log.Fatal` ended the process. -/
def privateKey (w : MainWorld) (path : String) : List Event × Option Signer :=
  match w.readFile path with
  | Except.error e => ([Event.readFile path, Event.fatal ["reading key", e]], none)
  | Except.ok keyBytes =>
    match w.parseKey keyBytes with
    | Except.error e =>
      ([Event.readFile path, Event.parseKey keyBytes, Event.fatal ["parsing key", e]], none)
    | Except.ok key => ([Event.readFile path, Event.parseKey keyBytes], some key)

/-- How the process stands after `main`: ended with an exit status, or still
blocked inside `Tunnel.Start`. -/
inductive ProcessResult where
  | exit (status : Nat)
  | running
deriving DecidableEq, Repr

/-- The source's `func main()`. -/
def main (f : Flags) (w : MainWorld) : List Event × ProcessResult :=
  match privateKey w f.sshKeyFile with
  | (tr, none) => (tr, ProcessResult.exit 1)
  | (tr, some key) =>
    let tunnel : Tunnel :=
      { Local := { Host := f.localHost, Port := f.localPort },
        Server := { Host := f.sshHost, Port := f.sshPort },
        Remote := { Host := f.remoteHost, Port := f.remotePort },
        Config := { User := f.sshUser, Timeout := 30, Auth := key } }
    let tr := tr ++ [Event.printf "Tunneling through %s\n\tExposing remote %q as local %q"
      [tunnel.Server.String, tunnel.Remote.String, tunnel.Local.String]]
    match tunnel.Start w.start with
    | (tr2, StartResult.returned (some e)) =>
      (tr ++ tr2 ++ [Event.fatal [e]], ProcessResult.exit 1)
    | (tr2, StartResult.returned none) => (tr ++ tr2, ProcessResult.exit 0)
    | (tr2, StartResult.blocked) => (tr ++ tr2, ProcessResult.running)

/-! ## `Tunnel.forward` -/

/-- What a reader hands to `io.Copy` before the copy ends: the successive chunks
that are read and written, then end-of-stream (`err = none`, `io.Copy` returns
`nil`) or the read or write error `io.Copy` returns. -/
structure ReadStream where
  chunks : List Bytes
  err : Option Err
deriving DecidableEq, Repr

/-- What the outside world answers to one call of `Tunnel.forward`: the error
results of `ssh.Dial` and `server.Dial` (`none` is `nil`) and what reading from the
local connection and from the forwarded channel delivers. -/
structure ForwardWorld where
  sshDial : Option Err
  chanDial : Option Err
  fromLocal : ReadStream
  fromRemote : ReadStream
deriving DecidableEq, Repr

/-- The stream read from one end. -/
def ForwardWorld.feed (w : ForwardWorld) : ConnEnd → ReadStream
  | ConnEnd.localConn => w.fromLocal
  | ConnEnd.remoteChan => w.fromRemote

/-- The two goroutines started by the `go copy(...)` statements of lines 123 and
124, in that order. -/
inductive CopyTask where
  | first
  | second
deriving DecidableEq, Repr

/-- First argument of the `go copy(...)` statement. -/
def CopyTask.name : CopyTask → String
  | CopyTask.first => "local->remote"
  | CopyTask.second => "remote->local"

/-- Second argument of the `go copy(...)` statement: the parameter `w`, which
`io.Copy(w, r)` writes to. -/
def CopyTask.w : CopyTask → ConnEnd
  | CopyTask.first => ConnEnd.localConn
  | CopyTask.second => ConnEnd.remoteChan

/-- Third argument of the `go copy(...)` statement: the parameter `r`, which
`io.Copy(w, r)` reads from. -/
def CopyTask.r : CopyTask → ConnEnd
  | CopyTask.first => ConnEnd.remoteChan
  | CopyTask.second => ConnEnd.localConn

/-- Where a copy goroutine stands: not yet started by its `go` statement, inside
`io.Copy` with chunks still to come, past `io.Copy` (at `if err != nil`), at the
deferred `wg.Done()`, or ended. -/
inductive CopyPc where
  | unstarted
  | copying (rest : List Bytes)
  | returned
  | deferred
  | ended
deriving DecidableEq, Repr

/-- Where the goroutine running `Tunnel.forward` stands in the relaying phase: at
the first `go` statement, at the second, in `wg.Wait()`, at the deferred
`log.Printf("Disconnecting ...")`, or returned. -/
inductive ForwardPc where
  | goFirst
  | goSecond
  | waiting
  | deferred
  | returned
deriving DecidableEq, Repr

/-- State of one call of `Tunnel.forward`: the trace so far, the counter of the
wait group, the three program counters, and whether `log.Fatal` has ended the
process. -/
structure FState where
  trace : List Event
  wg : Int
  pc : ForwardPc
  first : CopyPc
  second : CopyPc
  exited : Bool
deriving DecidableEq, Repr

/-- Program counter of a copy goroutine. -/
def FState.copyPc (s : FState) : CopyTask → CopyPc
  | CopyTask.first => s.first
  | CopyTask.second => s.second

/-- Program counter of a copy goroutine, updated. -/
def FState.setCopyPc (s : FState) (k : CopyTask) (pc : CopyPc) : FState :=
  match k with
  | CopyTask.first => { s with first := pc }
  | CopyTask.second => { s with second := pc }

/-- One more call recorded. -/
def FState.emit (s : FState) (e : Event) : FState :=
  { s with trace := s.trace ++ [e] }

/-- The goroutines of one call of `Tunnel.forward`. -/
inductive Tid where
  | forward
  | copy (k : CopyTask)
deriving DecidableEq, Repr

/-- One step of the closure `copy` (lines 115 to 121) run as goroutine `k`:
`io.Copy(w, r)` writes to `w` the next chunk read from `r`, or returns when there
is none; a non-nil error is logged under the name of the goroutine; the deferred
`wg.Done()` runs last. -/
def stepCopy (w : ForwardWorld) (k : CopyTask) (s : FState) : FState :=
  match s.copyPc k with
  | CopyPc.unstarted => s
  | CopyPc.copying (p :: rest) =>
    (s.setCopyPc k (CopyPc.copying rest)).emit (Event.write k.w p)
  | CopyPc.copying [] => s.setCopyPc k CopyPc.returned
  | CopyPc.returned =>
    match (w.feed k.r).err with
    | some e =>
      (s.setCopyPc k CopyPc.deferred).emit (Event.printf "io.Copy %s: %v" [k.name, e])
    | none => s.setCopyPc k CopyPc.deferred
  | CopyPc.deferred =>
    { (s.setCopyPc k CopyPc.ended).emit Event.wgDone with wg := s.wg - 1 }
  | CopyPc.ended => s

/-- One step of `Tunnel.forward` in the relaying phase (lines 123 to 126): the two
`go` statements, `wg.Wait()`, which goes on only when the counter is zero, and the
deferred log line. -/
def stepForward (conn : Conn) (w : ForwardWorld) (s : FState) : FState :=
  match s.pc with
  | ForwardPc.goFirst =>
    { s with
      pc := ForwardPc.goSecond
      first := CopyPc.copying (w.feed CopyTask.first.r).chunks
      trace := s.trace ++
        [Event.goCopy CopyTask.first.name CopyTask.first.w CopyTask.first.r] }
  | ForwardPc.goSecond =>
    { s with
      pc := ForwardPc.waiting
      second := CopyPc.copying (w.feed CopyTask.second.r).chunks
      trace := s.trace ++
        [Event.goCopy CopyTask.second.name CopyTask.second.w CopyTask.second.r] }
  | ForwardPc.waiting => if s.wg = 0 then { s with pc := ForwardPc.deferred } else s
  | ForwardPc.deferred =>
    { s with
      pc := ForwardPc.returned
      trace := s.trace ++ [Event.printf "Disconnecting %s" [conn.RemoteAddr]] }
  | ForwardPc.returned => s

/-- One step of the goroutine the scheduler picked. -/
def step (conn : Conn) (w : ForwardWorld) (s : FState) : Tid → FState
  | Tid.forward => stepForward conn w s
  | Tid.copy k => stepCopy w k s

/-- The relaying phase under a schedule. -/
def run (conn : Conn) (w : ForwardWorld) (sched : List Tid) (s : FState) : FState :=
  sched.foldl (step conn w) s

/-- The source's `func (tunnel *Tunnel) forward(local net.Conn)`, lines 98 to 126:
the connecting phase, in which a failed dial ends the process through `log.Fatal`
(the deferred log line does not run), then `wg.Add(2)` and the relaying phase under
the schedule `sched`. -/
def Tunnel.forward (tunnel : Tunnel) (conn : Conn) (w : ForwardWorld) (sched : List Tid) :
    FState :=
  let tr : List Event :=
    [Event.printf "Connecting %s" [conn.RemoteAddr],
     Event.sshDial "tcp" tunnel.Server.String tunnel.Config]
  match w.sshDial with
  | some e =>
    { trace := tr ++ [Event.fatal ["dialing ssh server", e]], wg := 0,
      pc := ForwardPc.goFirst, first := CopyPc.unstarted, second := CopyPc.unstarted,
      exited := true }
  | none =>
    let tr := tr ++ [Event.chanDial "tcp" tunnel.Remote.String]
    match w.chanDial with
    | some e =>
      { trace := tr ++ [Event.fatal ["dialing remote server", e]], wg := 0,
        pc := ForwardPc.goFirst, first := CopyPc.unstarted, second := CopyPc.unstarted,
        exited := true }
    | none =>
      run conn w sched
        { trace := tr ++ [Event.wgAdd 2], wg := 2,
          pc := ForwardPc.goFirst, first := CopyPc.unstarted, second := CopyPc.unstarted,
          exited := false }

/-! ## Observations on traces -/

/-- Payload of an event when it is a write to the end `c`. -/
def Event.payload (c : ConnEnd) : Event → Option Bytes
  | Event.write w p => if w = c then some p else none
  | _ => none

/-- Bytes written to the end `c`, in order, over a trace. -/
def written (c : ConnEnd) (tr : List Event) : Bytes :=
  (tr.filterMap (Event.payload c)).flatten

/-- Connection of an event when it starts a forwarder. -/
def Event.forwarded : Event → Option Conn
  | Event.goForward c => some c
  | _ => none

/-- Connections handed to a forwarder, in order, over a trace. -/
def dispatched (tr : List Event) : List Conn :=
  tr.filterMap Event.forwarded

/-- Is the event a `net.Listen` call. -/
def Event.isListen : Event → Bool
  | Event.listen _ _ => true
  | _ => false

/-- Is the event a `log.Fatal` call. -/
def Event.isFatal : Event → Bool
  | Event.fatal _ => true
  | _ => false

/-- Is the event the start of a copy goroutine. -/
def Event.isGoCopy : Event → Bool
  | Event.goCopy _ _ _ => true
  | _ => false

/-- Is the event an `ssh.Dial` call. -/
def Event.isSshDial : Event → Bool
  | Event.sshDial _ _ _ => true
  | _ => false

/-- Is the event a `server.Dial` call. -/
def Event.isChanDial : Event → Bool
  | Event.chanDial _ _ => true
  | _ => false

/-- The trace of `Tunnel.Start` for the accepted connections `conns` followed by a
failing `Accept`: one `Accept`, one log line and one `go tunnel.forward(conn)` per
connection, then the failing `Accept` and the deferred `listener.Close()`. -/
def acceptedTrace (conns : List Conn) : List Event :=
  conns.flatMap (fun c =>
    [Event.accept, Event.printf "accept connection from %q" [c.RemoteAddr],
     Event.goForward c]) ++ [Event.accept, Event.close Resource.listener]

/-- Base-10 rendering of a natural number as the specification words it: its decimal
digits, most significant first, without padding; zero is the single digit 0. -/
def decimalDigits (n : Nat) : List Char :=
  if n = 0 then ['0'] else (Nat.digits 10 n).reverse.map (fun d => Char.ofNat (48 + d))

/-- Base-10 rendering of an integer as the specification words it: a leading minus sign
only when the value is negative, then the digits of its absolute value. -/
def decimal (p : Int) : List Char :=
  if p < 0 then '-' :: decimalDigits p.natAbs else decimalDigits p.natAbs

/-- Events the relaying phase of `Tunnel.forward` adds to the trace for the
connection `conn` in the world `w`: the two `go copy(...)` statements, the writes of
`io.Copy(w, r)`, the log line of a copy error (under the name of the goroutine, with
the error its reader ends on), `wg.Done()` and the deferred log line. -/
inductive RelayEvent (conn : Conn) (w : ForwardWorld) : Event → Prop where
  | goCopy (k : CopyTask) : RelayEvent conn w (Event.goCopy k.name k.w k.r)
  | write (k : CopyTask) (p : Bytes) : RelayEvent conn w (Event.write k.w p)
  | copyErr (k : CopyTask) (e : Err) (h : (w.feed k.r).err = some e) :
    RelayEvent conn w (Event.printf "io.Copy %s: %v" [k.name, e])
  | wgDone : RelayEvent conn w Event.wgDone
  | disconnect : RelayEvent conn w (Event.printf "Disconnecting %s" [conn.RemoteAddr])

/-- Contribution of a copy goroutine to the wait-group counter: one until its
`wg.Done()` has run. -/
def CopyPc.pending : CopyPc → Int
  | CopyPc.ended => 0
  | _ => 1

/-- Bytes a copy goroutine has still to write, `chunks` being what its reader
delivers in all. -/
def CopyPc.remaining (chunks : List Bytes) : CopyPc → Bytes
  | CopyPc.unstarted => chunks.flatten
  | CopyPc.copying rest => rest.flatten
  | _ => []

/-- Steps a copy goroutine has still to take, `chunks` being what its reader
delivers in all. -/
def CopyPc.todo (chunks : List Bytes) : CopyPc → Nat
  | CopyPc.unstarted => chunks.length + 4
  | CopyPc.copying rest => rest.length + 3
  | CopyPc.returned => 2
  | CopyPc.deferred => 1
  | CopyPc.ended => 0

/-- Steps `Tunnel.forward` itself has still to take in the relaying phase. -/
def ForwardPc.todo : ForwardPc → Nat
  | ForwardPc.goFirst => 4
  | ForwardPc.goSecond => 3
  | ForwardPc.waiting => 2
  | ForwardPc.deferred => 1
  | ForwardPc.returned => 0

/-- Steps still to take before `Tunnel.forward` has returned. -/
def FState.todo (w : ForwardWorld) (s : FState) : Nat :=
  s.pc.todo + s.first.todo (w.feed CopyTask.first.r).chunks
    + s.second.todo (w.feed CopyTask.second.r).chunks

/-- A scheduler that brings `Tunnel.forward` to its end: the `go` statements first,
then each copy goroutine to its end, then `wg.Wait()` and the deferred log line. -/
def nextTid (s : FState) : Tid :=
  match s.pc with
  | ForwardPc.goFirst => Tid.forward
  | ForwardPc.goSecond => Tid.forward
  | _ =>
    if s.first ≠ CopyPc.ended then Tid.copy CopyTask.first
    else if s.second ≠ CopyPc.ended then Tid.copy CopyTask.second
    else Tid.forward

/-- The schedule `nextTid` produces in `n` steps from the state `s`. -/
def finishing (conn : Conn) (w : ForwardWorld) : Nat → FState → List Tid
  | 0, _ => []
  | n + 1, s => nextTid s :: finishing conn w n (step conn w s (nextTid s))

/-- What holds of every state of the relaying phase: the counter of the wait group
is the number of copy goroutines that have not ended, a copy goroutine is unstarted
exactly until its `go` statement has run, `Tunnel.forward` is past `wg.Wait()` only
when both copy goroutines have ended, what has been written to the writer of a copy
goroutine together with what it has still to write is what its reader delivers, and
a copy goroutine past its error check has logged the error of its reader. -/
structure Inv (w : ForwardWorld) (s : FState) : Prop where
  counter : s.wg = s.first.pending + s.second.pending
  dones : (s.trace.count Event.wgDone : Int) = 2 - s.wg
  atFirst : s.pc = ForwardPc.goFirst → s.first = CopyPc.unstarted
  atSecond : s.pc = ForwardPc.goFirst ∨ s.pc = ForwardPc.goSecond →
    s.second = CopyPc.unstarted
  startedFirst : s.pc ≠ ForwardPc.goFirst → s.first ≠ CopyPc.unstarted
  startedSecond : s.pc ≠ ForwardPc.goFirst → s.pc ≠ ForwardPc.goSecond →
    s.second ≠ CopyPc.unstarted
  closed : s.pc = ForwardPc.deferred ∨ s.pc = ForwardPc.returned →
    s.first = CopyPc.ended ∧ s.second = CopyPc.ended
  dataFirst :
    written CopyTask.first.w s.trace ++ s.first.remaining (w.feed CopyTask.first.r).chunks
      = (w.feed CopyTask.first.r).chunks.flatten
  dataSecond :
    written CopyTask.second.w s.trace
        ++ s.second.remaining (w.feed CopyTask.second.r).chunks
      = (w.feed CopyTask.second.r).chunks.flatten
  loggedFirst : ∀ e : Err, (w.feed CopyTask.first.r).err = some e →
    s.first = CopyPc.deferred ∨ s.first = CopyPc.ended →
    Event.printf "io.Copy %s: %v" [CopyTask.first.name, e] ∈ s.trace
  loggedSecond : ∀ e : Err, (w.feed CopyTask.second.r).err = some e →
    s.second = CopyPc.deferred ∨ s.second = CopyPc.ended →
    Event.printf "io.Copy %s: %v" [CopyTask.second.name, e] ∈ s.trace

/-- State in which the relaying phase of `Tunnel.forward` starts for the
connection `conn`: both dials have succeeded and `wg.Add(2)` has run. -/
def relayStart (tunnel : Tunnel) (conn : Conn) : FState :=
  { trace :=
      [Event.printf "Connecting %s" [conn.RemoteAddr],
       Event.sshDial "tcp" tunnel.Server.String tunnel.Config,
       Event.chanDial "tcp" tunnel.Remote.String,
       Event.wgAdd 2],
    wg := 2, pc := ForwardPc.goFirst, first := CopyPc.unstarted,
    second := CopyPc.unstarted, exited := false }

/-- The world in which reading from the end `c` ends without error (`io.Copy`
returns `nil` there), all else being equal. -/
def ForwardWorld.withoutErr (w : ForwardWorld) : ConnEnd → ForwardWorld
  | ConnEnd.localConn => { w with fromLocal := { w.fromLocal with err := none } }
  | ConnEnd.remoteChan => { w with fromRemote := { w.fromRemote with err := none } }

/-- Is the event the log line of a copy error under the name `name`. -/
def Event.isErrLog (name : String) : Event → Bool
  | Event.printf format (n :: _) => format = "io.Copy %s: %v" && n = name
  | _ => false

/-- The trace without the copy-error log lines under the name `name`. -/
def withoutErrLog (name : String) (tr : List Event) : List Event :=
  tr.filter (fun ev => !ev.isErrLog name)

/-- Two states of the relaying phase that differ at most in copy-error log lines
under the name `name`. -/
def Sim (name : String) (s s2 : FState) : Prop :=
  s.wg = s2.wg ∧ s.pc = s2.pc ∧ s.first = s2.first ∧ s.second = s2.second
    ∧ s.exited = s2.exited ∧ withoutErrLog name s.trace = withoutErrLog name s2.trace

/-! ## A concrete run -/

/-- The tunnel of the scenario of the specification: local `127.0.0.1:8080`,
server `192.0.2.1:22`, remote `10.0.0.5:80`. -/
def scenarioTunnel : Tunnel :=
  { Local := { Host := "127.0.0.1", Port := 8080 },
    Server := { Host := "192.0.2.1", Port := 22 },
    Remote := { Host := "10.0.0.5", Port := 80 },
    Config := { User := "ubuntu", Timeout := 30, Auth := [1, 2, 3] } }

/-- A client of the scenario. -/
def scenarioConn : Conn := { RemoteAddr := "127.0.0.1:50000" }

/-- A world in which both dials succeed, the client sends two chunks and the
remote answers with one, both streams ending without error. -/
def scenarioWorld : ForwardWorld :=
  { sshDial := none, chanDial := none,
    fromLocal := { chunks := [[71, 69, 84], [13, 10]], err := none },
    fromRemote := { chunks := [[50, 48, 48]], err := none } }

/-- The scenario with a read error on the forwarded channel after its chunk. -/
def scenarioWorldRemoteErr : ForwardWorld :=
  { scenarioWorld with
    fromRemote := { chunks := [[50, 48, 48]], err := some "connection reset" } }

/-- A schedule: both `go` statements, the first copy goroutine to its end, the
second to its end, then `wg.Wait()` and the deferred log line. -/
def scenarioSchedule : List Tid :=
  [Tid.forward, Tid.forward,
   Tid.copy CopyTask.first, Tid.copy CopyTask.first, Tid.copy CopyTask.first,
   Tid.copy CopyTask.first,
   Tid.copy CopyTask.second, Tid.copy CopyTask.second, Tid.copy CopyTask.second,
   Tid.copy CopyTask.second, Tid.copy CopyTask.second,
   Tid.forward, Tid.forward]

/-- A schedule in which the copy goroutines take turns and the second ends before
the first. -/
def scenarioScheduleInterleaved : List Tid :=
  [Tid.forward, Tid.copy CopyTask.first, Tid.forward,
   Tid.copy CopyTask.second, Tid.copy CopyTask.first, Tid.copy CopyTask.second,
   Tid.forward, Tid.copy CopyTask.second, Tid.copy CopyTask.second,
   Tid.copy CopyTask.second, Tid.copy CopyTask.first, Tid.forward,
   Tid.copy CopyTask.first, Tid.forward, Tid.forward]

/-! ## Theorems -/

theorem acceptLoop_accepted (conns : List Conn) (e : Err) (rest : List AcceptOutcome) :
    acceptLoop (conns.map AcceptOutcome.conn ++ AcceptOutcome.error e :: rest)
      = (acceptedTrace conns, StartResult.returned (some e)) := by
  induction conns with
  | nil => simp [acceptLoop, acceptedTrace]
  | cons c cs ih =>
    have ih2 : acceptLoop ((List.map AcceptOutcome.conn cs).append
        (AcceptOutcome.error e :: rest))
          = (acceptedTrace cs, StartResult.returned (some e)) := ih
    simp only [List.map_cons, List.cons_append, acceptLoop]
    rw [ih2]
    simp [acceptedTrace]

theorem dispatched_acceptedTrace (conns : List Conn) :
    dispatched (acceptedTrace conns) = conns := by
  induction conns with
  | nil => simp [dispatched, acceptedTrace, Event.forwarded]
  | cons c cs ih =>
    simp only [dispatched, acceptedTrace] at ih ⊢
    simp [Event.forwarded] at ih ⊢
    exact ih

theorem count_accept_acceptedTrace (conns : List Conn) :
    (acceptedTrace conns).count Event.accept = conns.length + 1 := by
  induction conns with
  | nil => simp [acceptedTrace]
  | cons c cs ih =>
    simp only [acceptedTrace] at ih ⊢
    simp at ih ⊢
    omega

theorem acceptLoop_ne_nil (accepts : List AcceptOutcome) :
    (acceptLoop accepts).2 ≠ StartResult.returned none := by
  induction accepts with
  | nil => simp [acceptLoop]
  | cons a rest ih =>
    cases a with
    | conn c => simpa [acceptLoop] using ih
    | error e => simp [acceptLoop]

/-- C3: after a successful bind, `n` successful accepts followed by an accept error
`e` make `Tunnel.Start` start exactly `n` forwarders, one per accepted connection in
accept order, each `go` statement directly followed by the next `Accept`, then stop
accepting (the later outcomes `rest` are never asked for) and return exactly `e`;
and no run of `Tunnel.Start` returns `nil`. -/
theorem Start_accept_loop (tunnel : Tunnel) (addr : String) (conns : List Conn) (e : Err)
    (rest : List AcceptOutcome) :
    tunnel.Start { listen := Except.ok addr,
                   accepts := conns.map AcceptOutcome.conn ++ AcceptOutcome.error e :: rest }
      = (Event.listen "tcp" tunnel.Local.String
          :: Event.printf "listening for connections on %q" [addr] :: acceptedTrace conns,
         StartResult.returned (some e))
    ∧ dispatched (Event.listen "tcp" tunnel.Local.String
          :: Event.printf "listening for connections on %q" [addr] :: acceptedTrace conns)
        = conns
    ∧ (acceptedTrace conns).count Event.accept = conns.length + 1
    ∧ ∀ w : StartWorld, (tunnel.Start w).2 ≠ StartResult.returned none := by
  refine ⟨?_, ?_, count_accept_acceptedTrace conns, ?_⟩
  · simp [Tunnel.Start, acceptLoop_accepted]
  · have h := dispatched_acceptedTrace conns
    simp only [dispatched] at h ⊢
    simpa [Event.forwarded] using h
  · intro w
    rcases w with ⟨l, accepts⟩
    cases l with
    | error e2 => simp [Tunnel.Start]
    | ok a => simpa [Tunnel.Start] using acceptLoop_ne_nil accepts

/-- C4: when `net.Listen` on `Local.String()` fails with `e`, `Tunnel.Start` returns
exactly `e`; its trace is the `Listen` call alone, so `Accept` is never called and no
forwarder is started. -/
theorem Start_bind_failure (tunnel : Tunnel) (e : Err) (accepts : List AcceptOutcome) :
    tunnel.Start { listen := Except.error e, accepts := accepts }
      = ([Event.listen "tcp" tunnel.Local.String], StartResult.returned (some e))
    ∧ Event.accept ∉ (tunnel.Start { listen := Except.error e, accepts := accepts }).1
    ∧ dispatched (tunnel.Start { listen := Except.error e, accepts := accepts }).1 = [] := by
  simp [Tunnel.Start, dispatched, Event.forwarded]

/-- C9: when reading the key file fails, or reading succeeds and parsing fails,
`main` ends the process with status 1 through the `log.Fatal` of `privateKey`, which
is the last call made; no `net.Listen` and no `Accept` occurs in the trace. -/
theorem main_key_failure (f : Flags) (w : MainWorld)
    (h : (∃ e, w.readFile f.sshKeyFile = Except.error e)
      ∨ (∃ keyBytes e, w.readFile f.sshKeyFile = Except.ok keyBytes
          ∧ w.parseKey keyBytes = Except.error e)) :
    (main f w).2 = ProcessResult.exit 1
    ∧ (∃ args, (main f w).1.getLast? = some (Event.fatal args))
    ∧ (∀ ev ∈ (main f w).1, ev.isListen = false)
    ∧ Event.accept ∉ (main f w).1 := by
  rcases h with ⟨e, h⟩ | ⟨keyBytes, e, h, h2⟩
  · simp [main, privateKey, h, Event.isListen]
  · simp [main, privateKey, h, h2, Event.isListen]

/-- Witness of C9: a key file that cannot be read. -/
theorem main_key_failure_witness :
    (main Flags.defaults
        { readFile := fun _ => Except.error "no such file",
          parseKey := fun b => Except.ok b,
          start := { listen := Except.ok "127.0.0.1:8080", accepts := [] } }).2
      = ProcessResult.exit 1
    ∧ (∃ args, (main Flags.defaults
        { readFile := fun _ => Except.error "no such file",
          parseKey := fun b => Except.ok b,
          start := { listen := Except.ok "127.0.0.1:8080", accepts := [] } }).1.getLast?
        = some (Event.fatal args))
    ∧ (∀ ev ∈ (main Flags.defaults
        { readFile := fun _ => Except.error "no such file",
          parseKey := fun b => Except.ok b,
          start := { listen := Except.ok "127.0.0.1:8080", accepts := [] } }).1,
        ev.isListen = false)
    ∧ Event.accept ∉ (main Flags.defaults
        { readFile := fun _ => Except.error "no such file",
          parseKey := fun b => Except.ok b,
          start := { listen := Except.ok "127.0.0.1:8080", accepts := [] } }).1 :=
  main_key_failure Flags.defaults _ (Or.inl ⟨"no such file", rfl⟩)

/-! ### `Endpoint.String` -/

theorem decimalDigits_of_lt_ten (u : Nat) (h : u < 10) :
    decimalDigits u = [Char.ofNat (48 + u)] := by
  unfold decimalDigits
  split
  · next h0 => subst h0; rfl
  · next h0 =>
    rw [Nat.digits_of_lt 10 u h0 h]
    simp

theorem decimalDigits_step (u : Nat) (h : 10 ≤ u) :
    decimalDigits u = decimalDigits (u / 10) ++ [Char.ofNat (48 + u % 10)] := by
  have hu : u ≠ 0 := by omega
  have hq : u / 10 ≠ 0 := by omega
  unfold decimalDigits
  rw [if_neg hu, if_neg hq, Nat.digits_def' (by norm_num) (by omega)]
  simp

theorem fmtDigits_eq (fuel : Nat) : ∀ (u : Nat) (buf : List Char), u < 10 ^ (fuel + 1) →
    fmtDigits fuel u buf = decimalDigits u ++ buf := by
  induction fuel with
  | zero =>
    intro u buf h
    have h10 : u < 10 := by simpa using h
    simp [fmtDigits, decimalDigits_of_lt_ten u h10, Nat.mod_eq_of_lt h10]
  | succ n ih =>
    intro u buf h
    unfold fmtDigits
    split
    · next h10 =>
      have hq : u / 10 < 10 ^ (n + 1) := by
        rw [Nat.div_lt_iff_lt_mul (by norm_num)]
        calc u < 10 ^ (n + 1 + 1) := h
          _ = 10 ^ (n + 1) * 10 := by ring
      have hm : u - u / 10 * 10 = u % 10 := by omega
      rw [ih (u / 10) _ hq, decimalDigits_step u h10, hm]
      simp
    · next h10 =>
      simp [decimalDigits_of_lt_ten u (by omega)]

theorem fmtInteger_eq (p : Int) (hlo : -2 ^ 63 ≤ p) (hhi : p < 2 ^ 63) :
    fmtInteger p = decimal p := by
  unfold fmtInteger decimal
  by_cases hneg : p < 0
  · have hu : (2 ^ 64 - (p % 2 ^ 64).toNat) % 2 ^ 64 = p.natAbs := by omega
    have hb : p.natAbs < 10 ^ (20 + 1) := by
      have : p.natAbs ≤ 2 ^ 63 := by omega
      exact lt_of_le_of_lt this (by norm_num)
    simp only [hneg, decide_True, if_true]
    rw [hu, fmtDigits_eq 20 _ _ hb]
    simp
  · have hu : (p % 2 ^ 64).toNat = p.natAbs := by omega
    have hb : p.natAbs < 10 ^ (20 + 1) := by
      have : p.natAbs ≤ 2 ^ 63 := by omega
      exact lt_of_le_of_lt this (by norm_num)
    simp only [hneg, decide_False, Bool.false_eq_true, if_false]
    rw [hu, fmtDigits_eq 20 _ _ hb]
    simp

/-! ### The relaying phase: what it adds to the trace -/

theorem stepForward_trace (conn : Conn) (w : ForwardWorld) (s : FState) :
    (stepForward conn w s).trace = s.trace
    ∨ ∃ ev, (stepForward conn w s).trace = s.trace ++ [ev] ∧ RelayEvent conn w ev := by
  unfold stepForward
  split
  · exact Or.inr ⟨_, rfl, RelayEvent.goCopy CopyTask.first⟩
  · exact Or.inr ⟨_, rfl, RelayEvent.goCopy CopyTask.second⟩
  · split <;> exact Or.inl rfl
  · exact Or.inr ⟨_, rfl, RelayEvent.disconnect⟩
  · exact Or.inl rfl

theorem setCopyPc_trace (s : FState) (k : CopyTask) (pc : CopyPc) :
    (s.setCopyPc k pc).trace = s.trace := by
  cases k <;> rfl

theorem stepCopy_trace (conn : Conn) (w : ForwardWorld) (k : CopyTask) (s : FState) :
    (stepCopy w k s).trace = s.trace
    ∨ ∃ ev, (stepCopy w k s).trace = s.trace ++ [ev] ∧ RelayEvent conn w ev := by
  unfold stepCopy
  split
  · exact Or.inl rfl
  · next p rest _ =>
    exact Or.inr ⟨Event.write k.w p, by simp [FState.emit, setCopyPc_trace],
      RelayEvent.write k p⟩
  · exact Or.inl (setCopyPc_trace _ _ _)
  · split
    · next e he =>
      exact Or.inr ⟨Event.printf "io.Copy %s: %v" [k.name, e],
        by simp [FState.emit, setCopyPc_trace], RelayEvent.copyErr k e he⟩
    · exact Or.inl (setCopyPc_trace _ _ _)
  · exact Or.inr ⟨Event.wgDone, by simp [FState.emit, setCopyPc_trace], RelayEvent.wgDone⟩
  · exact Or.inl rfl

theorem step_trace (conn : Conn) (w : ForwardWorld) (s : FState) (t : Tid) :
    (step conn w s t).trace = s.trace
    ∨ ∃ ev, (step conn w s t).trace = s.trace ++ [ev] ∧ RelayEvent conn w ev := by
  cases t with
  | forward => exact stepForward_trace conn w s
  | copy k => exact stepCopy_trace conn w k s

theorem run_trace (conn : Conn) (w : ForwardWorld) (sched : List Tid) :
    ∀ s : FState, ∃ tail, (run conn w sched s).trace = s.trace ++ tail
      ∧ ∀ ev ∈ tail, RelayEvent conn w ev := by
  induction sched with
  | nil => intro s; exact ⟨[], by simp [run], by simp⟩
  | cons t ts ih =>
    intro s
    obtain ⟨tail, h1, h2⟩ := ih (step conn w s t)
    have h1b : (run conn w (t :: ts) s).trace = (step conn w s t).trace ++ tail := h1
    rcases step_trace conn w s t with h | ⟨ev, h, hev⟩
    · exact ⟨tail, by rw [h1b, h], h2⟩
    · refine ⟨ev :: tail, by rw [h1b, h]; simp, ?_⟩
      intro x hx
      rcases List.mem_cons.mp hx with rfl | hx
      · exact hev
      · exact h2 x hx

theorem step_exited (conn : Conn) (w : ForwardWorld) (s : FState) (t : Tid) :
    (step conn w s t).exited = s.exited := by
  cases t with
  | forward =>
    simp only [step, stepForward]
    split <;> try rfl
    split <;> rfl
  | copy k =>
    simp only [step, stepCopy]
    cases k <;> (split <;> try rfl) <;> (split <;> rfl)

theorem run_exited (conn : Conn) (w : ForwardWorld) (sched : List Tid) :
    ∀ s : FState, (run conn w sched s).exited = s.exited := by
  induction sched with
  | nil => intro s; rfl
  | cons t ts ih =>
    intro s
    have h : (run conn w (t :: ts) s) = run conn w ts (step conn w s t) := rfl
    rw [h, ih, step_exited]

/-! ### The relaying phase: the invariant -/

theorem written_snoc (c : ConnEnd) (tr : List Event) (ev : Event) :
    written c (tr ++ [ev]) = written c tr ++ ((ev.payload c).getD []) := by
  unfold written
  rw [List.filterMap_append, List.flatten_append]
  cases h : ev.payload c <;> simp [h]

theorem pending_eq_zero (first second : CopyPc)
    (h : (0 : Int) = first.pending + second.pending) :
    first = CopyPc.ended ∧ second = CopyPc.ended := by
  cases first <;> cases second <;> simp [CopyPc.pending] at h ⊢

theorem Inv_stepForward (conn : Conn) (w : ForwardWorld) (s : FState) (h : Inv w s) :
    Inv w (stepForward conn w s) := by
  obtain ⟨h1, h2, h3, h4, h5, h6, h7, h8, h9, h10, h11⟩ := h
  rcases s with ⟨trace, wg, pc, first, second, exited⟩
  dsimp only at h1 h2 h3 h4 h5 h6 h7 h8 h9 h10 h11
  cases pc
  case goFirst =>
    obtain rfl : first = CopyPc.unstarted := h3 rfl
    obtain rfl : second = CopyPc.unstarted := h4 (Or.inl rfl)
    simp only [stepForward]
    constructor <;> dsimp only
    all_goals
      simp [written_snoc, Event.payload, CopyPc.pending, CopyPc.remaining,
        CopyTask.w, CopyTask.r, CopyTask.name] at *
    all_goals assumption
  case goSecond =>
    obtain rfl : second = CopyPc.unstarted := h4 (Or.inr rfl)
    simp only [stepForward]
    constructor <;> dsimp only
    all_goals
      simp [written_snoc, Event.payload, CopyPc.pending, CopyPc.remaining,
        CopyTask.w, CopyTask.r, CopyTask.name] at *
    all_goals assumption
  case waiting =>
    simp only [stepForward]
    split
    · next hz =>
      subst hz
      obtain ⟨rfl, rfl⟩ := pending_eq_zero first second h1
      constructor <;> dsimp only
      all_goals
        simp [written_snoc, Event.payload, CopyPc.pending, CopyPc.remaining,
          CopyTask.w, CopyTask.r, CopyTask.name] at *
      all_goals assumption
    · exact ⟨h1, h2, h3, h4, h5, h6, h7, h8, h9, h10, h11⟩
  case deferred =>
    obtain ⟨rfl, rfl⟩ := h7 (Or.inl rfl)
    simp only [stepForward]
    constructor <;> dsimp only
    all_goals
      simp [written_snoc, Event.payload, CopyPc.pending, CopyPc.remaining,
        CopyTask.w, CopyTask.r, CopyTask.name] at *
    all_goals assumption
  case returned =>
    exact ⟨h1, h2, h3, h4, h5, h6, h7, h8, h9, h10, h11⟩

theorem Inv_stepCopy (w : ForwardWorld) (k : CopyTask) (s : FState) (h : Inv w s) :
    Inv w (stepCopy w k s) := by
  obtain ⟨h1, h2, h3, h4, h5, h6, h7, h8, h9, h10, h11⟩ := h
  rcases s with ⟨trace, wg, pc, first, second, exited⟩
  dsimp only at h1 h2 h3 h4 h5 h6 h7 h8 h9 h10 h11
  cases k
  case first =>
    cases first
    case unstarted => exact ⟨h1, h2, h3, h4, h5, h6, h7, h8, h9, h10, h11⟩
    case ended => exact ⟨h1, h2, h3, h4, h5, h6, h7, h8, h9, h10, h11⟩
    case copying rest =>
      cases rest
      all_goals
        simp only [stepCopy, FState.copyPc, FState.setCopyPc, FState.emit]
        constructor <;> dsimp only
      all_goals
        simp [written_snoc, Event.payload, CopyPc.pending, CopyPc.remaining,
          CopyTask.w, CopyTask.r, CopyTask.name] at *
      all_goals assumption
    case returned =>
      simp only [stepCopy, FState.copyPc, FState.setCopyPc, FState.emit]
      split
      all_goals
        constructor <;> dsimp only
      all_goals
        simp [written_snoc, Event.payload, CopyPc.pending, CopyPc.remaining,
          CopyTask.w, CopyTask.r, CopyTask.name] at *
      all_goals first | assumption | omega | simp_all
    case deferred =>
      simp only [stepCopy, FState.copyPc, FState.setCopyPc, FState.emit]
      constructor <;> dsimp only
      all_goals
        simp [written_snoc, Event.payload, CopyPc.pending, CopyPc.remaining,
          CopyTask.w, CopyTask.r, CopyTask.name] at *
      all_goals first | assumption | omega | simp_all
  case second =>
    cases second
    case unstarted => exact ⟨h1, h2, h3, h4, h5, h6, h7, h8, h9, h10, h11⟩
    case ended => exact ⟨h1, h2, h3, h4, h5, h6, h7, h8, h9, h10, h11⟩
    case copying rest =>
      cases rest
      all_goals
        simp only [stepCopy, FState.copyPc, FState.setCopyPc, FState.emit]
        constructor <;> dsimp only
      all_goals
        simp [written_snoc, Event.payload, CopyPc.pending, CopyPc.remaining,
          CopyTask.w, CopyTask.r, CopyTask.name] at *
      all_goals assumption
    case returned =>
      simp only [stepCopy, FState.copyPc, FState.setCopyPc, FState.emit]
      split
      all_goals
        constructor <;> dsimp only
      all_goals
        simp [written_snoc, Event.payload, CopyPc.pending, CopyPc.remaining,
          CopyTask.w, CopyTask.r, CopyTask.name] at *
      all_goals first | assumption | omega | simp_all
    case deferred =>
      simp only [stepCopy, FState.copyPc, FState.setCopyPc, FState.emit]
      constructor <;> dsimp only
      all_goals
        simp [written_snoc, Event.payload, CopyPc.pending, CopyPc.remaining,
          CopyTask.w, CopyTask.r, CopyTask.name] at *
      all_goals first | assumption | omega | simp_all

theorem forward_eq_run (tunnel : Tunnel) (conn : Conn) (w : ForwardWorld)
    (sched : List Tid) (hs : w.sshDial = none) (hc : w.chanDial = none) :
    tunnel.forward conn w sched = run conn w sched (relayStart tunnel conn) := by
  simp [Tunnel.forward, hs, hc, relayStart]

theorem Inv_relayStart (tunnel : Tunnel) (conn : Conn) (w : ForwardWorld) :
    Inv w (relayStart tunnel conn) := by
  constructor <;> simp [relayStart, CopyPc.pending, CopyPc.remaining, written, Event.payload]

theorem Inv_step (conn : Conn) (w : ForwardWorld) (s : FState) (t : Tid) (h : Inv w s) :
    Inv w (step conn w s t) := by
  cases t with
  | forward => exact Inv_stepForward conn w s h
  | copy k => exact Inv_stepCopy w k s h

theorem Inv_run (conn : Conn) (w : ForwardWorld) (sched : List Tid) :
    ∀ s : FState, Inv w s → Inv w (run conn w sched s) := by
  induction sched with
  | nil => intro s h; exact h
  | cons t ts ih => intro s h; exact ih _ (Inv_step conn w s t h)

theorem Inv_forward (tunnel : Tunnel) (conn : Conn) (w : ForwardWorld)
    (sched : List Tid) (hs : w.sshDial = none) (hc : w.chanDial = none) :
    Inv w (tunnel.forward conn w sched) := by
  rw [forward_eq_run tunnel conn w sched hs hc]
  exact Inv_run conn w sched _ (Inv_relayStart tunnel conn w)

theorem run_append (conn : Conn) (w : ForwardWorld) (a b : List Tid) (s : FState) :
    run conn w (a ++ b) s = run conn w b (run conn w a s) := by
  simp [run, List.foldl_append]

/-! ### The relaying phase: it comes to its end -/

theorem stepCopy_todo (w : ForwardWorld) (k : CopyTask) (s : FState)
    (h1 : s.copyPc k ≠ CopyPc.unstarted) (h2 : s.copyPc k ≠ CopyPc.ended) :
    (stepCopy w k s).todo w + 1 = s.todo w := by
  rcases s with ⟨trace, wg, pc, first, second, exited⟩
  cases k
  case first =>
    dsimp only [FState.copyPc] at h1 h2
    cases first
    case unstarted => exact absurd rfl h1
    case ended => exact absurd rfl h2
    case copying rest =>
      cases rest <;>
        simp [stepCopy, FState.copyPc, FState.setCopyPc, FState.emit, FState.todo,
          CopyPc.todo] <;> omega
    case returned =>
      simp only [stepCopy, FState.copyPc, FState.setCopyPc, FState.emit]
      split <;> simp [FState.todo, CopyPc.todo] <;> omega
    case deferred =>
      simp [stepCopy, FState.copyPc, FState.setCopyPc, FState.emit, FState.todo,
        CopyPc.todo]
      omega
  case second =>
    dsimp only [FState.copyPc] at h1 h2
    cases second
    case unstarted => exact absurd rfl h1
    case ended => exact absurd rfl h2
    case copying rest =>
      cases rest
      · simp [stepCopy, FState.copyPc, FState.setCopyPc, FState.emit, FState.todo,
          CopyPc.todo]
      · simp [stepCopy, FState.copyPc, FState.setCopyPc, FState.emit, FState.todo,
          CopyPc.todo]
        omega
    case returned =>
      simp only [stepCopy, FState.copyPc, FState.setCopyPc, FState.emit]
      split <;> simp [FState.todo, CopyPc.todo]
    case deferred =>
      simp [stepCopy, FState.copyPc, FState.setCopyPc, FState.emit, FState.todo,
        CopyPc.todo]

theorem todo_decreases (conn : Conn) (w : ForwardWorld) (s : FState) (h : Inv w s)
    (hp : s.pc ≠ ForwardPc.returned) :
    (step conn w s (nextTid s)).todo w < s.todo w := by
  obtain ⟨h1, h2, h3, h4, h5, h6, h7, h8, h9, h10, h11⟩ := h
  clear h2 h8 h9 h10 h11
  by_cases hgo : s.pc = ForwardPc.goFirst ∨ s.pc = ForwardPc.goSecond
  · rcases s with ⟨trace, wg, pc, first, second, exited⟩
    dsimp only at h1 h3 h4 h5 h6 h7 hp hgo
    rcases hgo with rfl | rfl
    · obtain rfl : first = CopyPc.unstarted := h3 rfl
      simp [nextTid, step, stepForward, FState.todo, CopyPc.todo, ForwardPc.todo]
      omega
    · obtain rfl : second = CopyPc.unstarted := h4 (Or.inr rfl)
      simp [nextTid, step, stepForward, FState.todo, CopyPc.todo, ForwardPc.todo]
      omega
  · have hg1 : s.pc ≠ ForwardPc.goFirst := fun hh => hgo (Or.inl hh)
    have hg2 : s.pc ≠ ForwardPc.goSecond := fun hh => hgo (Or.inr hh)
    by_cases hf : s.first = CopyPc.ended
    · by_cases hsnd : s.second = CopyPc.ended
      · have hn : nextTid s = Tid.forward := by
          unfold nextTid
          split <;> simp_all
        rw [hn]
        rcases s with ⟨trace, wg, pc, first, second, exited⟩
        dsimp only at h1 h3 h4 h5 h6 h7 hp hgo hg1 hg2 hf hsnd
        subst hf hsnd
        cases pc <;>
          simp_all [step, stepForward, FState.todo, CopyPc.todo, ForwardPc.todo,
            CopyPc.pending]
      · have hn : nextTid s = Tid.copy CopyTask.second := by
          unfold nextTid
          split <;> simp_all
        rw [hn]
        have := stepCopy_todo w CopyTask.second s (h6 hg1 hg2) hsnd
        simp only [step]
        omega
    · have hn : nextTid s = Tid.copy CopyTask.first := by
        unfold nextTid
        split <;> simp_all
      rw [hn]
      have := stepCopy_todo w CopyTask.first s (h5 hg1) hf
      simp only [step]
      omega

theorem step_of_returned (conn : Conn) (w : ForwardWorld) (s : FState) (t : Tid)
    (h : Inv w s) (hp : s.pc = ForwardPc.returned) : step conn w s t = s := by
  obtain ⟨hf, hs⟩ := h.closed (Or.inr hp)
  rcases s with ⟨trace, wg, pc, first, second, exited⟩
  dsimp only at hp hf hs
  subst hp hf hs
  cases t with
  | forward => rfl
  | copy k => cases k <;> rfl

theorem run_of_returned (conn : Conn) (w : ForwardWorld) (sched : List Tid) (s : FState)
    (h : Inv w s) (hp : s.pc = ForwardPc.returned) : run conn w sched s = s := by
  induction sched with
  | nil => rfl
  | cons t ts ih =>
    have h2 : run conn w (t :: ts) s = run conn w ts (step conn w s t) := rfl
    rw [h2, step_of_returned conn w s t h hp, ih]

theorem finishing_returns (conn : Conn) (w : ForwardWorld) :
    ∀ (n : Nat) (s : FState), Inv w s → s.todo w ≤ n →
      (run conn w (finishing conn w n s) s).pc = ForwardPc.returned := by
  intro n
  induction n with
  | zero =>
    intro s _ hn
    have hz : s.pc.todo = 0 := by
      unfold FState.todo at hn
      omega
    rcases s with ⟨trace, wg, pc, first, second, exited⟩
    cases pc <;> simp [ForwardPc.todo] at hz
    rfl
  | succ n ih =>
    intro s h hn
    have h2 : run conn w (finishing conn w (n + 1) s) s
        = run conn w (finishing conn w n (step conn w s (nextTid s)))
            (step conn w s (nextTid s)) := rfl
    rw [h2]
    by_cases hp : s.pc = ForwardPc.returned
    · rw [step_of_returned conn w s _ h hp, run_of_returned conn w _ s h hp]
      exact hp
    · have hd := todo_decreases conn w s h hp
      exact ih _ (Inv_step conn w s _ h) (by omega)

theorem forward_can_return (tunnel : Tunnel) (conn : Conn) (w : ForwardWorld)
    (sched : List Tid) (hs : w.sshDial = none) (hc : w.chanDial = none) :
    ∃ ext : List Tid, (tunnel.forward conn w (sched ++ ext)).pc = ForwardPc.returned := by
  have hi := Inv_forward tunnel conn w sched hs hc
  refine ⟨finishing conn w ((tunnel.forward conn w sched).todo w)
    (tunnel.forward conn w sched), ?_⟩
  rw [forward_eq_run tunnel conn w _ hs hc, run_append,
    ← forward_eq_run tunnel conn w sched hs hc]
  exact finishing_returns conn w _ _ hi (le_refl _)

/-! ### The relaying phase: one direction does not depend on the error of the other -/

theorem withoutErrLog_snoc (name : String) (tr : List Event) (ev : Event) :
    withoutErrLog name (tr ++ [ev])
      = withoutErrLog name tr ++ (if ev.isErrLog name then [] else [ev]) := by
  unfold withoutErrLog
  rw [List.filter_append]
  cases h : ev.isErrLog name <;> simp [h]

theorem Sim_stepForward (conn : Conn) (w w2 : ForwardWorld) (name : String)
    (hchunks : ∀ c, (w.feed c).chunks = (w2.feed c).chunks)
    (s s2 : FState) (h : Sim name s s2) :
    Sim name (stepForward conn w s) (stepForward conn w2 s2) := by
  rcases s with ⟨trace, wg, pc, first, second, exited⟩
  rcases s2 with ⟨trace2, wg2, pc2, first2, second2, exited2⟩
  obtain ⟨h1, h2, h3, h4, h5, h6⟩ := h
  dsimp only at h1 h2 h3 h4 h5 h6
  subst h1 h2 h3 h4 h5
  cases pc
  case waiting =>
    simp only [stepForward]
    split <;> exact ⟨rfl, rfl, rfl, rfl, rfl, h6⟩
  all_goals
    simp only [stepForward, Sim, withoutErrLog_snoc, h6, hchunks, and_self, true_and]
    try simp [Event.isErrLog]

theorem Sim_stepCopy (w w2 : ForwardWorld) (k j : CopyTask)
    (herr : j ≠ k → (w.feed j.r).err = (w2.feed j.r).err)
    (s s2 : FState) (h : Sim k.name s s2) :
    Sim k.name (stepCopy w j s) (stepCopy w2 j s2) := by
  rcases s with ⟨trace, wg, pc, first, second, exited⟩
  rcases s2 with ⟨trace2, wg2, pc2, first2, second2, exited2⟩
  obtain ⟨h1, h2, h3, h4, h5, h6⟩ := h
  dsimp only at h1 h2 h3 h4 h5 h6
  subst h1 h2 h3 h4 h5
  cases j
  case first =>
    cases first
    case copying rest =>
      cases rest <;>
        simp [stepCopy, FState.copyPc, FState.setCopyPc, FState.emit, Sim,
          withoutErrLog_snoc, h6, Event.isErrLog]
    case returned =>
      cases k
      case first =>
        simp only [CopyTask.name] at h6
        simp only [stepCopy, FState.copyPc, FState.setCopyPc, FState.emit]
        split <;> split <;>
          simp [Sim, withoutErrLog_snoc, h6, Event.isErrLog, CopyTask.name]
      case second =>
        simp only [CopyTask.name] at h6
        have he := herr (by decide)
        simp only [stepCopy, FState.copyPc, FState.setCopyPc, FState.emit, he]
        split <;>
          simp [Sim, withoutErrLog_snoc, h6, Event.isErrLog, CopyTask.name]
    all_goals
      simp [stepCopy, FState.copyPc, FState.setCopyPc, FState.emit, Sim,
        withoutErrLog_snoc, h6, Event.isErrLog]
  case second =>
    cases second
    case copying rest =>
      cases rest <;>
        simp [stepCopy, FState.copyPc, FState.setCopyPc, FState.emit, Sim,
          withoutErrLog_snoc, h6, Event.isErrLog]
    case returned =>
      cases k
      case second =>
        simp only [CopyTask.name] at h6
        simp only [stepCopy, FState.copyPc, FState.setCopyPc, FState.emit]
        split <;> split <;>
          simp [Sim, withoutErrLog_snoc, h6, Event.isErrLog, CopyTask.name]
      case first =>
        simp only [CopyTask.name] at h6
        have he := herr (by decide)
        simp only [stepCopy, FState.copyPc, FState.setCopyPc, FState.emit, he]
        split <;>
          simp [Sim, withoutErrLog_snoc, h6, Event.isErrLog, CopyTask.name]
    all_goals
      simp [stepCopy, FState.copyPc, FState.setCopyPc, FState.emit, Sim,
        withoutErrLog_snoc, h6, Event.isErrLog]

theorem Sim_run (conn : Conn) (w w2 : ForwardWorld) (k : CopyTask)
    (hchunks : ∀ c, (w.feed c).chunks = (w2.feed c).chunks)
    (herr : ∀ j : CopyTask, j ≠ k → (w.feed j.r).err = (w2.feed j.r).err)
    (sched : List Tid) :
    ∀ s s2 : FState, Sim k.name s s2 →
      Sim k.name (run conn w sched s) (run conn w2 sched s2) := by
  induction sched with
  | nil => intro s s2 h; exact h
  | cons t ts ih =>
    intro s s2 h
    apply ih
    cases t with
    | forward => exact Sim_stepForward conn w w2 k.name hchunks s s2 h
    | copy j => exact Sim_stepCopy w w2 k j (herr j) s s2 h

theorem withoutErr_chunks (w : ForwardWorld) (c0 c : ConnEnd) :
    (w.feed c).chunks = ((w.withoutErr c0).feed c).chunks := by
  cases c0 <;> cases c <;> rfl

theorem withoutErr_err (w : ForwardWorld) (k j : CopyTask) (h : j ≠ k) :
    (w.feed j.r).err = ((w.withoutErr k.r).feed j.r).err := by
  cases k <;> cases j <;> first | rfl | exact absurd rfl h

theorem withoutErr_dials (w : ForwardWorld) (c : ConnEnd) :
    (w.withoutErr c).sshDial = w.sshDial ∧ (w.withoutErr c).chanDial = w.chanDial := by
  cases c <;> exact ⟨rfl, rfl⟩

theorem Sim_forward (tunnel : Tunnel) (conn : Conn) (w : ForwardWorld) (k : CopyTask)
    (sched : List Tid) (hs : w.sshDial = none) (hc : w.chanDial = none) :
    Sim k.name (tunnel.forward conn w sched)
      (tunnel.forward conn (w.withoutErr k.r) sched) := by
  have hd := withoutErr_dials w k.r
  rw [forward_eq_run tunnel conn w sched hs hc,
    forward_eq_run tunnel conn (w.withoutErr k.r) sched (by rw [hd.1, hs]) (by rw [hd.2, hc])]
  exact Sim_run conn w _ k (withoutErr_chunks w k.r) (withoutErr_err w k) sched _ _
    ⟨rfl, rfl, rfl, rfl, rfl, rfl⟩

/-! ### `Tunnel.forward` as a whole -/

theorem RelayEvent_kind (conn : Conn) (w : ForwardWorld) (ev : Event)
    (h : RelayEvent conn w ev) :
    ev.isFatal = false ∧ ev.isSshDial = false ∧ ev.isChanDial = false
      ∧ ev.isListen = false ∧ ∀ r, ev ≠ Event.close r := by
  cases h <;> simp [Event.isFatal, Event.isSshDial, Event.isChanDial, Event.isListen]

theorem RelayEvent_copyErr (conn : Conn) (w : ForwardWorld) (name : String) (e : Err)
    (h : RelayEvent conn w (Event.printf "io.Copy %s: %v" [name, e])) :
    ∃ k : CopyTask, name = k.name ∧ (w.feed k.r).err = some e := by
  generalize hev : Event.printf "io.Copy %s: %v" [name, e] = ev at h
  cases h with
  | goCopy k => cases hev
  | write k p => cases hev
  | wgDone => cases hev
  | disconnect =>
    simp only [Event.printf.injEq] at hev
    exact absurd hev.1 (by decide)
  | copyErr k e2 h2 =>
    simp only [Event.printf.injEq, List.cons.injEq, and_true, true_and] at hev
    obtain ⟨rfl, rfl⟩ := hev
    exact ⟨k, rfl, h2⟩

theorem forward_trace_cases (tunnel : Tunnel) (conn : Conn) (w : ForwardWorld)
    (sched : List Tid) :
    (∃ e, w.sshDial = some e ∧ tunnel.forward conn w sched =
      { trace := [Event.printf "Connecting %s" [conn.RemoteAddr],
          Event.sshDial "tcp" tunnel.Server.String tunnel.Config,
          Event.fatal ["dialing ssh server", e]],
        wg := 0, pc := ForwardPc.goFirst, first := CopyPc.unstarted,
        second := CopyPc.unstarted, exited := true })
    ∨ (∃ e, w.sshDial = none ∧ w.chanDial = some e ∧ tunnel.forward conn w sched =
      { trace := [Event.printf "Connecting %s" [conn.RemoteAddr],
          Event.sshDial "tcp" tunnel.Server.String tunnel.Config,
          Event.chanDial "tcp" tunnel.Remote.String,
          Event.fatal ["dialing remote server", e]],
        wg := 0, pc := ForwardPc.goFirst, first := CopyPc.unstarted,
        second := CopyPc.unstarted, exited := true })
    ∨ (w.sshDial = none ∧ w.chanDial = none
      ∧ (tunnel.forward conn w sched).exited = false
      ∧ ∃ tail, (tunnel.forward conn w sched).trace =
          [Event.printf "Connecting %s" [conn.RemoteAddr],
           Event.sshDial "tcp" tunnel.Server.String tunnel.Config,
           Event.chanDial "tcp" tunnel.Remote.String,
           Event.wgAdd 2] ++ tail
        ∧ ∀ ev ∈ tail, RelayEvent conn w ev) := by
  cases hs : w.sshDial with
  | some e => exact Or.inl ⟨e, rfl, by simp [Tunnel.forward, hs]⟩
  | none =>
    cases hc : w.chanDial with
    | some e => exact Or.inr (Or.inl ⟨e, rfl, rfl, by simp [Tunnel.forward, hs, hc]⟩)
    | none =>
      refine Or.inr (Or.inr ⟨rfl, rfl, ?_, ?_⟩)
      · rw [forward_eq_run tunnel conn w sched hs hc, run_exited]
        rfl
      · rw [forward_eq_run tunnel conn w sched hs hc]
        exact run_trace conn w sched (relayStart tunnel conn)

theorem written_cons (c : ConnEnd) (ev : Event) (tr : List Event) :
    written c (ev :: tr) = ((ev.payload c).getD []) ++ written c tr := by
  unfold written
  cases h : ev.payload c <;> simp [List.filterMap_cons, h]

theorem withoutErrLog_cons (name : String) (ev : Event) (tr : List Event) :
    withoutErrLog name (ev :: tr)
      = if ev.isErrLog name then withoutErrLog name tr else ev :: withoutErrLog name tr := by
  unfold withoutErrLog
  cases h : ev.isErrLog name <;> simp [List.filter_cons, h]

theorem payload_of_isErrLog (name : String) (c : ConnEnd) (ev : Event)
    (h : ev.isErrLog name = true) : ev.payload c = none := by
  cases ev <;> simp [Event.isErrLog] at h
  rfl

theorem written_withoutErrLog (name : String) (c : ConnEnd) (tr : List Event) :
    written c (withoutErrLog name tr) = written c tr := by
  induction tr with
  | nil => rfl
  | cons ev tr ih =>
    rw [withoutErrLog_cons, written_cons]
    by_cases h : ev.isErrLog name = true
    · rw [if_pos h, ih, payload_of_isErrLog name c ev h]
      rfl
    · rw [if_neg h, written_cons, ih]

/-! ### Properties of `Tunnel.forward` -/

theorem no_copyErr_logged (tunnel : Tunnel) (conn : Conn) (w : ForwardWorld)
    (sched : List Tid) (hl : w.fromLocal.err = none) (hr : w.fromRemote.err = none)
    (name : String) (e : Err) :
    Event.printf "io.Copy %s: %v" [name, e] ∉ (tunnel.forward conn w sched).trace := by
  intro hmem
  rcases forward_trace_cases tunnel conn w sched with ⟨e2, _, h⟩ | ⟨e2, _, _, h⟩ |
    ⟨_, _, _, tail, h, htail⟩
  · rw [h] at hmem
    simp at hmem
  · rw [h] at hmem
    simp at hmem
  · rw [h] at hmem
    simp at hmem
    obtain ⟨k, _, hk⟩ := RelayEvent_copyErr conn w name e (htail _ hmem)
    cases k
    · simp [CopyTask.r, ForwardWorld.feed, hr] at hk
    · simp [CopyTask.r, ForwardWorld.feed, hl] at hk

/-- C1: with both dials succeeded and both streams ending without error, the two
copy goroutines cover the two directions (the second reads the local connection and
writes the forwarded channel, the first reads the forwarded channel and writes the
local connection); under every schedule what has been written to either end is a
prefix of what the other end delivered, it is exactly that once the goroutine
writing to it has ended, no copy error is logged, and every schedule can be
continued until `Tunnel.forward` has returned with both ends having received
exactly the bytes of the other. -/
theorem forward_relays_both_directions (tunnel : Tunnel) (conn : Conn) (w : ForwardWorld)
    (sched : List Tid) (hs : w.sshDial = none) (hc : w.chanDial = none)
    (hl : w.fromLocal.err = none) (hr : w.fromRemote.err = none) :
    (CopyTask.second.r = ConnEnd.localConn ∧ CopyTask.second.w = ConnEnd.remoteChan
      ∧ CopyTask.first.r = ConnEnd.remoteChan ∧ CopyTask.first.w = ConnEnd.localConn)
    ∧ written ConnEnd.remoteChan (tunnel.forward conn w sched).trace
        <+: w.fromLocal.chunks.flatten
    ∧ written ConnEnd.localConn (tunnel.forward conn w sched).trace
        <+: w.fromRemote.chunks.flatten
    ∧ ((tunnel.forward conn w sched).second = CopyPc.ended →
        written ConnEnd.remoteChan (tunnel.forward conn w sched).trace
          = w.fromLocal.chunks.flatten)
    ∧ ((tunnel.forward conn w sched).first = CopyPc.ended →
        written ConnEnd.localConn (tunnel.forward conn w sched).trace
          = w.fromRemote.chunks.flatten)
    ∧ (∀ (name : String) (e : Err),
        Event.printf "io.Copy %s: %v" [name, e] ∉ (tunnel.forward conn w sched).trace)
    ∧ ∃ ext : List Tid,
        (tunnel.forward conn w (sched ++ ext)).pc = ForwardPc.returned
        ∧ written ConnEnd.remoteChan (tunnel.forward conn w (sched ++ ext)).trace
            = w.fromLocal.chunks.flatten
        ∧ written ConnEnd.localConn (tunnel.forward conn w (sched ++ ext)).trace
            = w.fromRemote.chunks.flatten := by
  have hi := Inv_forward tunnel conn w sched hs hc
  have d1 := hi.dataFirst
  have d2 := hi.dataSecond
  simp only [CopyTask.w, CopyTask.r, ForwardWorld.feed] at d1 d2
  refine ⟨⟨rfl, rfl, rfl, rfl⟩, ⟨_, d2⟩, ⟨_, d1⟩, ?_, ?_,
    no_copyErr_logged tunnel conn w sched hl hr, ?_⟩
  · intro h
    rw [h] at d2
    simpa [CopyPc.remaining] using d2
  · intro h
    rw [h] at d1
    simpa [CopyPc.remaining] using d1
  · obtain ⟨ext, hext⟩ := forward_can_return tunnel conn w sched hs hc
    have hj := Inv_forward tunnel conn w (sched ++ ext) hs hc
    obtain ⟨hf, hsnd⟩ := hj.closed (Or.inr hext)
    have e1 := hj.dataFirst
    have e2 := hj.dataSecond
    simp only [CopyTask.w, CopyTask.r, ForwardWorld.feed] at e1 e2
    rw [hf] at e1
    rw [hsnd] at e2
    exact ⟨ext, hext, by simpa [CopyPc.remaining] using e2,
      by simpa [CopyPc.remaining] using e1⟩

/-- Witness of C1: the scenario of the specification under a schedule that runs one
copy goroutine after the other. -/
theorem forward_relays_both_directions_witness :
    (scenarioWorld.sshDial = none ∧ scenarioWorld.chanDial = none
      ∧ scenarioWorld.fromLocal.err = none ∧ scenarioWorld.fromRemote.err = none)
    ∧ (scenarioTunnel.forward scenarioConn scenarioWorld scenarioSchedule).second
      = CopyPc.ended
    ∧ (scenarioTunnel.forward scenarioConn scenarioWorld scenarioSchedule).first
      = CopyPc.ended
    ∧ written ConnEnd.remoteChan
        (scenarioTunnel.forward scenarioConn scenarioWorld scenarioSchedule).trace
      = [71, 69, 84, 13, 10]
    ∧ written ConnEnd.localConn
        (scenarioTunnel.forward scenarioConn scenarioWorld scenarioSchedule).trace
      = [50, 48, 48] := by
  have h := forward_relays_both_directions scenarioTunnel scenarioConn scenarioWorld
    scenarioSchedule rfl rfl rfl rfl
  have hsnd : (scenarioTunnel.forward scenarioConn scenarioWorld scenarioSchedule).second
      = CopyPc.ended := by decide
  have hf : (scenarioTunnel.forward scenarioConn scenarioWorld scenarioSchedule).first
      = CopyPc.ended := by decide
  exact ⟨⟨rfl, rfl, rfl, rfl⟩, hsnd, hf, h.2.2.2.1 hsnd, h.2.2.2.2.1 hf⟩

/-- C6: with both dials succeeded, under every schedule the counter of the wait
group is the number of copy goroutines that have not ended (it is 2 as long as
neither `go` statement has run, and each `wg.Done()` in the trace stands for one
ended goroutine), `Tunnel.forward` is past `wg.Wait()` (at its deferred log line
or returned) only when both copy goroutines have ended and the counter is zero, and
every schedule can be continued until `Tunnel.forward` has returned. -/
theorem forward_returns_after_both_copies (tunnel : Tunnel) (conn : Conn)
    (w : ForwardWorld) (sched : List Tid) (hs : w.sshDial = none)
    (hc : w.chanDial = none) :
    (tunnel.forward conn w sched).wg
        = (tunnel.forward conn w sched).first.pending
          + (tunnel.forward conn w sched).second.pending
    ∧ ((tunnel.forward conn w sched).trace.count Event.wgDone : Int)
        = 2 - (tunnel.forward conn w sched).wg
    ∧ ((tunnel.forward conn w sched).pc = ForwardPc.goFirst →
        (tunnel.forward conn w sched).wg = 2
        ∧ (tunnel.forward conn w sched).first = CopyPc.unstarted
        ∧ (tunnel.forward conn w sched).second = CopyPc.unstarted)
    ∧ ((tunnel.forward conn w sched).pc = ForwardPc.deferred
        ∨ (tunnel.forward conn w sched).pc = ForwardPc.returned →
        (tunnel.forward conn w sched).first = CopyPc.ended
        ∧ (tunnel.forward conn w sched).second = CopyPc.ended
        ∧ (tunnel.forward conn w sched).wg = 0
        ∧ (tunnel.forward conn w sched).trace.count Event.wgDone = 2)
    ∧ ∃ ext : List Tid,
        (tunnel.forward conn w (sched ++ ext)).pc = ForwardPc.returned := by
  have hi := Inv_forward tunnel conn w sched hs hc
  refine ⟨hi.counter, hi.dones, ?_, ?_, forward_can_return tunnel conn w sched hs hc⟩
  · intro hp
    have h1 := hi.atFirst hp
    have h2 := hi.atSecond (Or.inl hp)
    have h3 := hi.counter
    rw [h1, h2] at h3
    exact ⟨by simpa [CopyPc.pending] using h3, h1, h2⟩
  · intro hp
    obtain ⟨h1, h2⟩ := hi.closed hp
    have h3 := hi.counter
    have h4 := hi.dones
    rw [h1, h2] at h3
    simp only [CopyPc.pending] at h3
    refine ⟨h1, h2, by omega, by omega⟩

/-- Witness of C6: a run in which the second copy goroutine ends before the first
and `Tunnel.forward` returns after both. -/
theorem forward_returns_after_both_copies_witness :
    (scenarioWorldRemoteErr.sshDial = none ∧ scenarioWorldRemoteErr.chanDial = none)
    ∧ (scenarioTunnel.forward scenarioConn scenarioWorldRemoteErr
        scenarioScheduleInterleaved).pc = ForwardPc.returned
    ∧ (scenarioTunnel.forward scenarioConn scenarioWorldRemoteErr
        scenarioScheduleInterleaved).first = CopyPc.ended
    ∧ (scenarioTunnel.forward scenarioConn scenarioWorldRemoteErr
        scenarioScheduleInterleaved).second = CopyPc.ended
    ∧ (scenarioTunnel.forward scenarioConn scenarioWorldRemoteErr
        scenarioScheduleInterleaved).wg = 0
    ∧ (scenarioTunnel.forward scenarioConn scenarioWorldRemoteErr
        scenarioScheduleInterleaved).trace.count Event.wgDone = 2 := by
  have hp : (scenarioTunnel.forward scenarioConn scenarioWorldRemoteErr
      scenarioScheduleInterleaved).pc = ForwardPc.returned := by decide
  exact ⟨⟨rfl, rfl⟩, hp, (forward_returns_after_both_copies scenarioTunnel scenarioConn
    scenarioWorldRemoteErr scenarioScheduleInterleaved rfl rfl).2.2.2.1 (Or.inr hp)⟩

theorem countP_relay_tail (conn : Conn) (w : ForwardWorld) (tail : List Event)
    (h : ∀ ev ∈ tail, RelayEvent conn w ev) :
    tail.countP Event.isSshDial = 0 ∧ tail.countP Event.isChanDial = 0 := by
  constructor
  · rw [List.countP_eq_zero]
    intro ev hev
    simp [(RelayEvent_kind conn w ev (h ev hev)).2.1]
  · rw [List.countP_eq_zero]
    intro ev hev
    simp [(RelayEvent_kind conn w ev (h ev hev)).2.2.1]

/-- C2: when `ssh.Dial` fails, `Tunnel.forward` ends the process through `log.Fatal`
right after the one `ssh.Dial` call: no `server.Dial`, no `wg.Add`, no copy
goroutine; when `ssh.Dial` succeeds and `server.Dial` fails, it ends the process
through `log.Fatal` right after the one `server.Dial` call: no `wg.Add`, no copy
goroutine; the process is alive past the connecting phase, and a copy goroutine is
started, only when both dials succeeded; `ssh.Dial` is called exactly once and
`server.Dial` exactly once after a successful `ssh.Dial`, never otherwise. -/
theorem forward_connecting_failures (tunnel : Tunnel) (conn : Conn) (w : ForwardWorld)
    (sched : List Tid) :
    (∀ e, w.sshDial = some e →
      tunnel.forward conn w sched =
        { trace := [Event.printf "Connecting %s" [conn.RemoteAddr],
            Event.sshDial "tcp" tunnel.Server.String tunnel.Config,
            Event.fatal ["dialing ssh server", e]],
          wg := 0, pc := ForwardPc.goFirst, first := CopyPc.unstarted,
          second := CopyPc.unstarted, exited := true })
    ∧ (∀ e, w.sshDial = none → w.chanDial = some e →
      tunnel.forward conn w sched =
        { trace := [Event.printf "Connecting %s" [conn.RemoteAddr],
            Event.sshDial "tcp" tunnel.Server.String tunnel.Config,
            Event.chanDial "tcp" tunnel.Remote.String,
            Event.fatal ["dialing remote server", e]],
          wg := 0, pc := ForwardPc.goFirst, first := CopyPc.unstarted,
          second := CopyPc.unstarted, exited := true })
    ∧ ((tunnel.forward conn w sched).exited = false ↔
        w.sshDial = none ∧ w.chanDial = none)
    ∧ ((∃ ev ∈ (tunnel.forward conn w sched).trace, ev.isGoCopy = true) →
        w.sshDial = none ∧ w.chanDial = none)
    ∧ (tunnel.forward conn w sched).trace.countP Event.isSshDial = 1
    ∧ (tunnel.forward conn w sched).trace.countP Event.isChanDial
        = if w.sshDial = none then 1 else 0 := by
  rcases forward_trace_cases tunnel conn w sched with ⟨e, hs, h⟩ | ⟨e, hs, hc, h⟩ |
    ⟨hs, hc, hex, tail, h, htail⟩
  · rw [h]
    simp [hs, Event.isGoCopy, Event.isSshDial, Event.isChanDial]
  · rw [h]
    simp [hs, hc, Event.isGoCopy, Event.isSshDial, Event.isChanDial]
  · obtain ⟨c1, c2⟩ := countP_relay_tail conn w tail htail
    rw [h]
    simp [hs, hc, hex, Event.isSshDial, Event.isChanDial, List.countP_cons, c1, c2]

/-- Witness of C2: the scenario with a failing `ssh.Dial`. -/
theorem forward_connecting_failures_witness :
    scenarioTunnel.forward scenarioConn
        { scenarioWorld with sshDial := some "unable to authenticate" } scenarioSchedule =
      { trace := [Event.printf "Connecting %s" ["127.0.0.1:50000"],
          Event.sshDial "tcp" "192.0.2.1:22" scenarioTunnel.Config,
          Event.fatal ["dialing ssh server", "unable to authenticate"]],
        wg := 0, pc := ForwardPc.goFirst, first := CopyPc.unstarted,
        second := CopyPc.unstarted, exited := true } :=
  (forward_connecting_failures scenarioTunnel scenarioConn
    { scenarioWorld with sshDial := some "unable to authenticate" } scenarioSchedule).1
    "unable to authenticate" rfl

/-- C5: with both dials succeeded and the reader of copy goroutine `k` ending on the
error `e`, under every schedule: the process is not ended and no `log.Fatal` occurs;
once `k` is past its error check the line `io.Copy <name of k>: e` is in the log;
every `wg.Done()` in the trace stands for one ended goroutine, and the schedule can
be continued until `k` has ended and `Tunnel.forward` has returned; and compared with
the same run in the world where that reader ends without error, the counter, all
three program counters, the bytes written to either end and the whole trace apart
from the error lines of `k` are the same. -/
theorem copy_error_is_contained (tunnel : Tunnel) (conn : Conn) (w : ForwardWorld)
    (sched : List Tid) (k : CopyTask) (e : Err) (hs : w.sshDial = none)
    (hc : w.chanDial = none) (he : (w.feed k.r).err = some e) :
    (tunnel.forward conn w sched).exited = false
    ∧ (∀ ev ∈ (tunnel.forward conn w sched).trace, ev.isFatal = false)
    ∧ ((tunnel.forward conn w sched).copyPc k = CopyPc.deferred
        ∨ (tunnel.forward conn w sched).copyPc k = CopyPc.ended →
        Event.printf "io.Copy %s: %v" [k.name, e] ∈ (tunnel.forward conn w sched).trace)
    ∧ ((tunnel.forward conn w sched).trace.count Event.wgDone : Int)
        = (1 - (tunnel.forward conn w sched).first.pending)
          + (1 - (tunnel.forward conn w sched).second.pending)
    ∧ (∃ ext : List Tid,
        (tunnel.forward conn w (sched ++ ext)).copyPc k = CopyPc.ended
        ∧ (tunnel.forward conn w (sched ++ ext)).pc = ForwardPc.returned
        ∧ (tunnel.forward conn w (sched ++ ext)).exited = false)
    ∧ Sim k.name (tunnel.forward conn w sched)
        (tunnel.forward conn (w.withoutErr k.r) sched)
    ∧ ∀ c : ConnEnd, written c (tunnel.forward conn w sched).trace
        = written c (tunnel.forward conn (w.withoutErr k.r) sched).trace := by
  have hi := Inv_forward tunnel conn w sched hs hc
  have hsim := Sim_forward tunnel conn w k sched hs hc
  refine ⟨?_, ?_, ?_, ?_, ?_, hsim, ?_⟩
  · rw [forward_eq_run tunnel conn w sched hs hc, run_exited]
    rfl
  · intro ev hev
    rcases forward_trace_cases tunnel conn w sched with ⟨e2, h, _⟩ | ⟨e2, _, h, _⟩ |
      ⟨_, _, _, tail, h, htail⟩
    · rw [hs] at h
      cases h
    · rw [hc] at h
      cases h
    · rw [h] at hev
      simp only [List.mem_append, List.mem_cons, List.mem_singleton, List.not_mem_nil,
        or_false] at hev
      rcases hev with (rfl | rfl | rfl | rfl) | hev
      · rfl
      · rfl
      · rfl
      · rfl
      · exact (RelayEvent_kind conn w ev (htail ev hev)).1
  · intro hp
    cases k
    · exact hi.loggedFirst e he hp
    · exact hi.loggedSecond e he hp
  · have h1 := hi.counter
    have h2 := hi.dones
    omega
  · obtain ⟨ext, hext⟩ := forward_can_return tunnel conn w sched hs hc
    have hj := Inv_forward tunnel conn w (sched ++ ext) hs hc
    obtain ⟨hf, hsnd⟩ := hj.closed (Or.inr hext)
    refine ⟨ext, ?_, hext, ?_⟩
    · cases k
      · exact hf
      · exact hsnd
    · rw [forward_eq_run tunnel conn w _ hs hc, run_exited]
      rfl
  · intro c
    rw [← written_withoutErrLog k.name c (tunnel.forward conn w sched).trace,
      ← written_withoutErrLog k.name c
        (tunnel.forward conn (w.withoutErr k.r) sched).trace, hsim.2.2.2.2.2]

/-- Witness of C5: the scenario with a read error on the forwarded channel, the
reader of the first copy goroutine. -/
theorem copy_error_is_contained_witness :
    (scenarioWorldRemoteErr.sshDial = none ∧ scenarioWorldRemoteErr.chanDial = none)
    ∧ (scenarioWorldRemoteErr.feed CopyTask.first.r).err = some "connection reset"
    ∧ (scenarioTunnel.forward scenarioConn scenarioWorldRemoteErr
        scenarioScheduleInterleaved).copyPc CopyTask.first = CopyPc.ended
    ∧ Event.printf "io.Copy %s: %v" [CopyTask.first.name, "connection reset"]
        ∈ (scenarioTunnel.forward scenarioConn scenarioWorldRemoteErr
            scenarioScheduleInterleaved).trace
    ∧ (scenarioTunnel.forward scenarioConn scenarioWorldRemoteErr
        scenarioScheduleInterleaved).exited = false
    ∧ written ConnEnd.remoteChan (scenarioTunnel.forward scenarioConn
        scenarioWorldRemoteErr scenarioScheduleInterleaved).trace
      = written ConnEnd.remoteChan (scenarioTunnel.forward scenarioConn
        (scenarioWorldRemoteErr.withoutErr CopyTask.first.r)
        scenarioScheduleInterleaved).trace := by
  have h := copy_error_is_contained scenarioTunnel scenarioConn scenarioWorldRemoteErr
    scenarioScheduleInterleaved CopyTask.first "connection reset" rfl rfl rfl
  have hp : (scenarioTunnel.forward scenarioConn scenarioWorldRemoteErr
      scenarioScheduleInterleaved).copyPc CopyTask.first = CopyPc.ended := by decide
  exact ⟨⟨rfl, rfl⟩, rfl, hp, h.2.2.1 (Or.inr hp), h.1, h.2.2.2.2.2.2 ConnEnd.remoteChan⟩

/-- C7: no run of `Tunnel.forward` contains a `Close` call, whatever the tunnel, the
connection, the world and the schedule; in the scenario of the specification
`Tunnel.forward` returns after both copy goroutines have ended with a trace that
holds neither a close of the session nor a close of the forwarded channel. -/
theorem forward_never_closes :
    (∀ (tunnel : Tunnel) (conn : Conn) (w : ForwardWorld) (sched : List Tid)
        (r : Resource), Event.close r ∉ (tunnel.forward conn w sched).trace)
    ∧ (scenarioTunnel.forward scenarioConn scenarioWorld scenarioSchedule).pc
        = ForwardPc.returned
    ∧ (scenarioTunnel.forward scenarioConn scenarioWorld scenarioSchedule).trace
        = [Event.printf "Connecting %s" ["127.0.0.1:50000"],
           Event.sshDial "tcp" "192.0.2.1:22" scenarioTunnel.Config,
           Event.chanDial "tcp" "10.0.0.5:80",
           Event.wgAdd 2,
           Event.goCopy "local->remote" ConnEnd.localConn ConnEnd.remoteChan,
           Event.goCopy "remote->local" ConnEnd.remoteChan ConnEnd.localConn,
           Event.write ConnEnd.localConn [50, 48, 48],
           Event.wgDone,
           Event.write ConnEnd.remoteChan [71, 69, 84],
           Event.write ConnEnd.remoteChan [13, 10],
           Event.wgDone,
           Event.printf "Disconnecting %s" ["127.0.0.1:50000"]]
    ∧ Event.close Resource.session
        ∉ (scenarioTunnel.forward scenarioConn scenarioWorld scenarioSchedule).trace
    ∧ Event.close Resource.channel
        ∉ (scenarioTunnel.forward scenarioConn scenarioWorld scenarioSchedule).trace := by
  refine ⟨?_, by decide, by decide, by decide, by decide⟩
  intro tunnel conn w sched r hmem
  rcases forward_trace_cases tunnel conn w sched with ⟨e2, _, h⟩ | ⟨e2, _, _, h⟩ |
    ⟨_, _, _, tail, h, htail⟩
  · rw [h] at hmem
    simp at hmem
  · rw [h] at hmem
    simp at hmem
  · rw [h] at hmem
    simp at hmem
    exact (RelayEvent_kind conn w _ (htail _ hmem)).2.2.2.2 r rfl

/-- C10: the copy goroutine named `local->remote` reads the forwarded channel and
writes the local connection, and the one named `remote->local` reads the local
connection and writes the forwarded channel; in the scenario with a read error on
the forwarded channel, the error of the remote to local direction is logged as
`io.Copy local->remote: connection reset`, and no line names `remote->local`. -/
theorem copy_names_are_swapped :
    (CopyTask.first.name = "local->remote" ∧ CopyTask.first.r = ConnEnd.remoteChan
      ∧ CopyTask.first.w = ConnEnd.localConn)
    ∧ (CopyTask.second.name = "remote->local" ∧ CopyTask.second.r = ConnEnd.localConn
      ∧ CopyTask.second.w = ConnEnd.remoteChan)
    ∧ scenarioWorldRemoteErr.fromLocal.err = none
    ∧ scenarioWorldRemoteErr.fromRemote.err = some "connection reset"
    ∧ Event.printf "io.Copy %s: %v" ["local->remote", "connection reset"]
        ∈ (scenarioTunnel.forward scenarioConn scenarioWorldRemoteErr
            scenarioScheduleInterleaved).trace
    ∧ Event.printf "io.Copy %s: %v" ["remote->local", "connection reset"]
        ∉ (scenarioTunnel.forward scenarioConn scenarioWorldRemoteErr
            scenarioScheduleInterleaved).trace := by
  refine ⟨⟨rfl, rfl, rfl⟩, ⟨rfl, rfl, rfl⟩, rfl, rfl, by decide, by decide⟩

/-! ### The address handed to `net.Listen`, `ssh.Dial` and `server.Dial` -/

theorem acceptLoop_no_listen (accepts : List AcceptOutcome) :
    ∀ ev ∈ (acceptLoop accepts).1, ev.isListen = false := by
  induction accepts with
  | nil => simp [acceptLoop, Event.isListen]
  | cons a rest ih =>
    cases a with
    | conn c =>
      intro ev hev
      simp only [acceptLoop, List.mem_cons] at hev
      rcases hev with rfl | rfl | rfl | hev
      · rfl
      · rfl
      · rfl
      · exact ih ev hev
    | error e => simp [acceptLoop, Event.isListen]

theorem Start_listen_address (tunnel : Tunnel) (sw : StartWorld) :
    (tunnel.Start sw).1.head? = some (Event.listen "tcp" tunnel.Local.String)
    ∧ ∀ n a, Event.listen n a ∈ (tunnel.Start sw).1 → a = tunnel.Local.String := by
  rcases sw with ⟨l, accepts⟩
  cases l with
  | error e => simp [Tunnel.Start]
  | ok addr =>
    refine ⟨by simp [Tunnel.Start], ?_⟩
    intro n a hmem
    simp only [Tunnel.Start, List.mem_cons, Event.listen.injEq] at hmem
    rcases hmem with ⟨_, h⟩ | h | h
    · exact h
    · cases h
    · have := acceptLoop_no_listen accepts _ h
      simp [Event.isListen] at this

theorem forward_dial_addresses (tunnel : Tunnel) (conn : Conn) (w : ForwardWorld)
    (sched : List Tid) :
    Event.sshDial "tcp" tunnel.Server.String tunnel.Config
        ∈ (tunnel.forward conn w sched).trace
    ∧ (∀ n a c, Event.sshDial n a c ∈ (tunnel.forward conn w sched).trace →
        a = tunnel.Server.String)
    ∧ (w.sshDial = none →
        Event.chanDial "tcp" tunnel.Remote.String ∈ (tunnel.forward conn w sched).trace)
    ∧ (∀ n a, Event.chanDial n a ∈ (tunnel.forward conn w sched).trace →
        a = tunnel.Remote.String) := by
  rcases forward_trace_cases tunnel conn w sched with ⟨e, hs, h⟩ | ⟨e, hs, hc, h⟩ |
    ⟨hs, hc, hex, tail, h, htail⟩
  · rw [h]
    simp only [hs]
    simp
    intro n a c _ ha _
    exact ha
  · rw [h]
    simp only [hs]
    simp
    intro n a c _ ha _
    exact ha
  · rw [h]
    refine ⟨by simp, ?_, fun _ => by simp, ?_⟩
    · intro n a c hmem
      simp at hmem
      rcases hmem with ⟨_, h2, _⟩ | hmem
      · exact h2
      · have := (RelayEvent_kind conn w _ (htail _ hmem)).2.1
        simp [Event.isSshDial] at this
    · intro n a hmem
      simp at hmem
      rcases hmem with ⟨_, h2⟩ | hmem
      · exact h2
      · have := (RelayEvent_kind conn w _ (htail _ hmem)).2.2.1
        simp [Event.isChanDial] at this

/-- C8: for every host `h` and every port `p` a Go `int` can hold (zero, negative
and above 65535 included), `Endpoint.String` of the endpoint built from them is `h`,
a colon, then the base-10 rendering of `p` (a minus sign only when `p` is negative,
then the digits of the absolute value without padding); and that string of the
local, server and remote endpoint is the address handed to `net.Listen`, `ssh.Dial`
and `server.Dial`, which are handed no other address. -/
theorem Endpoint_String_decimal (h : String) (p : Int) (hlo : -2 ^ 63 ≤ p)
    (hhi : p < 2 ^ 63) (tunnel : Tunnel) (sw : StartWorld) (conn : Conn)
    (w : ForwardWorld) (sched : List Tid) :
    Endpoint.String { Host := h, Port := p } = h ++ ":" ++ String.mk (decimal p)
    ∧ (tunnel.Start sw).1.head? = some (Event.listen "tcp" tunnel.Local.String)
    ∧ (∀ n a, Event.listen n a ∈ (tunnel.Start sw).1 → a = tunnel.Local.String)
    ∧ Event.sshDial "tcp" tunnel.Server.String tunnel.Config
        ∈ (tunnel.forward conn w sched).trace
    ∧ (∀ n a c, Event.sshDial n a c ∈ (tunnel.forward conn w sched).trace →
        a = tunnel.Server.String)
    ∧ (w.sshDial = none →
        Event.chanDial "tcp" tunnel.Remote.String ∈ (tunnel.forward conn w sched).trace)
    ∧ (∀ n a, Event.chanDial n a ∈ (tunnel.forward conn w sched).trace →
        a = tunnel.Remote.String) := by
  refine ⟨?_, (Start_listen_address tunnel sw).1, (Start_listen_address tunnel sw).2,
    forward_dial_addresses tunnel conn w sched⟩
  simp only [Endpoint.String, fmtInteger_eq p hlo hhi]

/-- Witness of C8: a negative port. -/
theorem Endpoint_String_decimal_witness :
    (-2 ^ 63 ≤ (-22 : Int)) ∧ ((-22 : Int) < 2 ^ 63)
    ∧ Endpoint.String { Host := "localhost", Port := -22 }
        = "localhost" ++ ":" ++ String.mk (decimal (-22))
    ∧ Endpoint.String { Host := "localhost", Port := -22 } = "localhost:-22" :=
  ⟨by decide, by decide,
    (Endpoint_String_decimal "localhost" (-22) (by decide) (by decide) scenarioTunnel
      { listen := Except.ok "127.0.0.1:8080", accepts := [] } scenarioConn scenarioWorld
      scenarioSchedule).1,
    by decide⟩

end SshTunnel
